import Mathlib

/-
Verification of the podcast audio-generation pipeline of `src/podcast-agent.ts`.

JavaScript strings are modelled as `List Char`, audio `Buffer`s as `List Nat`
(byte sequences).  The external collaborators (speech transports, the LLM
optimizer, the content hash) are parameters of the embedded functions; each
embedded definition mirrors one function of the source file.
-/

namespace PodcastAgent

/-- The sentence-terminator character class of the regex `[^.!?]+[.!?]+`
used by `splitTextIntoSegments` and `generateSegmentedAudio`. -/
def isTermChar (c : Char) : Bool := c == '.' || c == '!' || c == '?'

/-- Whitespace, as trimmed by JavaScript `String.prototype.trim`. -/
def isWsChar (c : Char) : Bool := c.isWhitespace

/-- Left part of `String.prototype.trim`. -/
def trimL (l : List Char) : List Char := l.dropWhile isWsChar

/-- Right part of `String.prototype.trim`. -/
def trimR (l : List Char) : List Char := (l.reverse.dropWhile isWsChar).reverse

/-- JavaScript `String.prototype.trim`: drop whitespace at both ends. -/
def trim (l : List Char) : List Char := trimR (trimL l)

/-- One pass of the global regex match `text.match(/[^.!?]+[.!?]+/g)`.
`acc` holds the (reversed) characters of the sentence being built and
`seen` records whether the current sentence already contains a terminator
run.  A maximal run of non-terminators followed by a maximal run of
terminators forms one match; leading terminators and a trailing
terminator-free suffix are dropped, exactly as the regex does. -/
def sentAux : List Char → List Char → Bool → List (List Char)
  | [], acc, seen => if seen then [acc.reverse] else []
  | c :: rest, acc, seen =>
    if isTermChar c then
      if acc.isEmpty then sentAux rest [] false
      else sentAux rest (c :: acc) true
    else
      if seen then acc.reverse :: sentAux rest [c] false
      else sentAux rest (c :: acc) false

/-- All matches of `/[^.!?]+[.!?]+/g` on `l`. -/
def splitSentences (l : List Char) : List (List Char) := sentAux l [] false

/-- `text.match(/[^.!?]+[.!?]+/g) || [text]`: the sentence list used by
`splitTextIntoSegments`, falling back to the whole text when the regex
finds no match. -/
def sentencesOf (l : List Char) : List (List Char) :=
  match splitSentences l with
  | [] => [l]
  | ss => ss

/-- The accumulation loop of `splitTextIntoSegments`: greedily pack
sentences into a running segment, flushing (trimmed) when adding the next
sentence would exceed `maxLength` and the running segment is non-empty. -/
def segLoop (maxLength : Nat) : List (List Char) → List Char → List (List Char)
  | [], cur => if cur.isEmpty then [] else [trim cur]
  | s :: rest, cur =>
    if maxLength < cur.length + s.length ∧ cur ≠ [] then
      trim cur :: segLoop maxLength rest s
    else
      segLoop maxLength rest (cur ++ s)

/-- `splitTextIntoSegments(text, maxLength)` of `src/podcast-agent.ts`. -/
def splitTextIntoSegments (text : List Char) (maxLength : Nat) : List (List Char) :=
  segLoop maxLength (sentencesOf text) []

/-- `segs` reconstructs `t` up to whitespace removed at the split points:
`t` is the segments in order, interleaved with (possibly empty) runs of
whitespace. -/
def interleaves : List (List Char) → List Char → Prop
  | [], t => ∀ c ∈ t, isWsChar c = true
  | s :: rest, t => ∃ w u, (∀ c ∈ w, isWsChar c = true) ∧ t = w ++ s ++ u ∧ interleaves rest u

/-- `l` starts with `pat` (JavaScript `String.prototype.startsWith`). -/
def startsWithL : List Char → List Char → Bool
  | _, [] => true
  | [], _ :: _ => false
  | c :: cs, d :: ds => c == d && startsWithL cs ds

/-- `l.includes(pat)` on JavaScript strings. -/
def hasSubL : List Char → List Char → Bool
  | [], pat => startsWithL [] pat
  | c :: cs, pat => startsWithL (c :: cs) pat || hasSubL cs pat

/-- `error.message.includes('timeout')`, the escalation test of
`generatePodcastAudioWithRetry`. -/
def isTimeoutMsg (m : List Char) : Bool := hasSubL m ("timeout".toList)

/-- Result of one run of the retry loop of `generatePodcastAudioWithRetry`:
how many primary (AI SDK) attempts and fallback (direct API) invocations
were made, the backoff waits performed (in ms, in order), and the final
outcome. -/
structure RetryTrace where
  primaryCalls : Nat
  fallbackCalls : Nat
  waits : List Nat
  result : Except (List Char) (List Nat)

/-- The message of the error thrown when the retry loop ends without an
audio buffer: `Audio generation failed after N attempts. Last error: ...`. -/
def failMsg (maxRetries : Nat) (lastErr : Option (List Char)) : List Char :=
  ("Audio generation failed after ".toList) ++ (toString maxRetries).toList ++
    (" attempts. Last error: ".toList) ++
    (match lastErr with
     | some m => m
     | none => "undefined".toList)

/-- The retry loop of `generatePodcastAudioWithRetry` (lines 184-224).
`primary n` is the outcome of the n-th AI SDK attempt, `fallback k` the
outcome of the k-th direct-API invocation.  `remaining` counts the loop
iterations left (`maxRetries` down to 0) while `attempt` is the 1-based
loop variable, so `remaining = maxRetries + 1 - attempt` at every call. -/
def retryFrom (primary fallback : Nat → Except (List Char) (List Nat)) (maxRetries : Nat) :
    Nat → Nat → Nat → Option (List Char) → List Nat → RetryTrace
  | 0, attempt, fbCount, lastErr, ws =>
    ⟨attempt - 1, fbCount, ws.reverse, .error (failMsg maxRetries lastErr)⟩
  | remaining + 1, attempt, fbCount, _lastErr, ws =>
    match primary attempt with
    | .ok buf => ⟨attempt, fbCount, ws.reverse, .ok buf⟩
    | .error e =>
      if attempt = maxRetries ∨ isTimeoutMsg e = true then
        match fallback (fbCount + 1) with
        | .ok buf => ⟨attempt, fbCount + 1, ws.reverse, .ok buf⟩
        | .error de =>
          if attempt < maxRetries then
            retryFrom primary fallback maxRetries remaining (attempt + 1) (fbCount + 1)
              (some de) (min (5000 * attempt) 15000 :: ws)
          else
            retryFrom primary fallback maxRetries remaining (attempt + 1) (fbCount + 1)
              (some de) ws
      else
        if attempt < maxRetries then
          retryFrom primary fallback maxRetries remaining (attempt + 1) fbCount
            (some e) (min (5000 * attempt) 15000 :: ws)
        else
          retryFrom primary fallback maxRetries remaining (attempt + 1) fbCount
            (some e) ws

/-- The whole `for (attempt = 1; attempt <= maxRetries; attempt++)` loop. -/
def retryLoop (primary fallback : Nat → Except (List Char) (List Nat))
    (maxRetries : Nat) : RetryTrace :=
  retryFrom primary fallback maxRetries maxRetries 1 0 none []

/-- The suffix appended by the final truncation of `optimizeScriptForAudio`. -/
def truncationSuffix : List Char := "...[truncated for audio]".toList

/-- `optimizeScriptForAudio(script, targetLength)`.  The LLM rewrite
(`run(podcastAgent, ...)`) is an external collaborator, modelled by the
parameter `llm`; the surrounding length checks and the final hard
truncation are the source's. -/
def optimizeScriptForAudio (llm : List Char → List Char) (script : List Char)
    (targetLength : Nat) : List Char :=
  if script.length ≤ targetLength then script
  else
    let optimizedScript := llm script
    if targetLength < optimizedScript.length then
      optimizedScript.take (targetLength - 50) ++ truncationSuffix
    else optimizedScript

/-- Lookup in the in-memory `audioCache` map (`Map.has` / `Map.get`). -/
def cacheGet : List (List Char × List Nat) → List Char → Option (List Nat)
  | [], _ => none
  | (k, v) :: rest, key => if k = key then some v else cacheGet rest key

/-- `audioCache.set(cacheKey, audioBuffer)`; the newest binding shadows
older ones, matching `Map.set` under `cacheGet`. -/
def cacheSet (c : List (List Char × List Nat)) (key : List Char) (v : List Nat) :
    List (List Char × List Nat) :=
  (key, v) :: c

/-- `generatePodcastAudioWithRetry(script, maxRetries)`: cache check keyed
by `hash (script + voiceId)` (the source hashes with md5, an external
library call, modelled by the parameter `hash`), script optimization to
the 9900-character ceiling, the retry loop on the optimized script, and
caching of a successful result.  `primaryT`/`fallbackT` take the submitted
text and the attempt number.  Returns the trace and the updated cache. -/
def generatePodcastAudioWithRetryM (hash : List Char → List Char)
    (llm : List Char → List Char)
    (primaryT fallbackT : List Char → Nat → Except (List Char) (List Nat))
    (voiceId : List Char) (maxRetries : Nat)
    (cache : List (List Char × List Nat)) (script : List Char) :
    RetryTrace × List (List Char × List Nat) :=
  let cacheKey := hash (script ++ voiceId)
  match cacheGet cache cacheKey with
  | some buf => (⟨0, 0, [], .ok buf⟩, cache)
  | none =>
    let optimizedScript := optimizeScriptForAudio llm script 9900
    let tr := retryLoop (primaryT optimizedScript) (fallbackT optimizedScript) maxRetries
    match tr.result with
    | .ok buf => (tr, cacheSet cache cacheKey buf)
    | .error _ => (tr, cache)

/-- The texts that `generatePodcastAudioWithVoice(text, voiceId)` submits,
one per `generateAudioSegment` (hence per transport) call: the segments of
`splitTextIntoSegments(text, 2500)` when the text exceeds 2500 characters,
otherwise the text itself. -/
def submittedTextsWithVoice (text : List Char) : List (List Char) :=
  if 2500 < text.length then splitTextIntoSegments text 2500 else [text]

/-- `Promise.all` over the per-segment calls of
`generatePodcastAudioWithVoice`: all buffers in segment order, or the
error of a failing segment call. -/
def collectSegs (genSeg : List Char → Except (List Char) (List Nat)) :
    List (List Char) → Except (List Char) (List (List Nat))
  | [] => .ok []
  | s :: rest =>
    match genSeg s, collectSegs genSeg rest with
    | .error e, _ => .error e
    | .ok _, .error e => .error e
    | .ok b, .ok bs => .ok (b :: bs)

/-- `generatePodcastAudioWithVoice(text, voiceId)` with the per-segment
generator `generateAudioSegment` abstracted as `genSeg`.  `Promise.all`
over the segment calls either yields all buffers (concatenated in segment
order) or rejects with a failing segment's error. -/
def generatePodcastAudioWithVoiceM (genSeg : List Char → Except (List Char) (List Nat))
    (text : List Char) : Except (List Char) (List Nat) :=
  if 2500 < text.length then
    match collectSegs genSeg (splitTextIntoSegments text 2500) with
    | .ok bufs => .ok bufs.flatten
    | .error e => .error e
  else genSeg text

/-- One dialogue entry `{ text, voice_id }`. -/
structure DialogueItem where
  text : List Char
  voice_id : List Char

/-- The error thrown by `createPodcastFromUrl` when every per-turn audio
generation failed. -/
def allFailedMsg : List Char := "All audio segments failed to generate".toList

/-- The dialogue-audio assembly block of `createPodcastFromUrl` (lines
483-501): per-turn generation with a catch that turns a failure into
`null`, filtering out failed turns, concatenating survivors in original
order, and failing when none survive. -/
def assembleDialogue (gen : DialogueItem → Except (List Char) (List Nat))
    (dialogueData : List DialogueItem) : Except (List Char) (List Nat) :=
  let audioSegments := dialogueData.map (fun item => (gen item).toOption)
  let validSegments := audioSegments.filterMap id
  if 0 < validSegments.length then .ok validSegments.flatten
  else .error allFailedMsg

/-- Speaker A's voice id (`gmnazjXOFoOcWA59sd5m`). -/
def speakerAVoiceId : List Char := "gmnazjXOFoOcWA59sd5m".toList

/-- Speaker B's voice id (`1kNciG1jHVSuFBPoxdRZ`). -/
def speakerBVoiceId : List Char := "1kNciG1jHVSuFBPoxdRZ".toList

/-- JavaScript `Array.prototype.map((item, index) => ...)`, with the
running index made explicit. -/
def mapWithIdx (f : Nat → DialogueItem → DialogueItem) : Nat → List DialogueItem → List DialogueItem
  | _, [] => []
  | i, item :: rest => f i item :: mapWithIdx f (i + 1) rest

/-- `fixDialogueFormat(dialogue)`: keep each entry's text, rewrite its
voice id to Speaker A's at even indices and Speaker B's at odd indices. -/
def fixDialogueFormat (dialogue : List DialogueItem) : List DialogueItem :=
  mapWithIdx
    (fun index item =>
      ⟨item.text, if index % 2 = 0 then speakerAVoiceId else speakerBVoiceId⟩)
    0 dialogue

/-! ### Trim lemmas -/

theorem dropWhile_length_le (p : Char → Bool) (l : List Char) :
    (l.dropWhile p).length ≤ l.length := by
  conv_rhs => rw [← List.takeWhile_append_dropWhile p l]
  rw [List.length_append]
  omega

theorem trimL_decomp (l : List Char) :
    ∃ w, (∀ c ∈ w, isWsChar c = true) ∧ l = w ++ trimL l := by
  refine ⟨l.takeWhile isWsChar, ?_, ?_⟩
  · intro c hc
    exact List.mem_takeWhile_imp hc
  · exact (List.takeWhile_append_dropWhile isWsChar l).symm

theorem trimR_decomp (l : List Char) :
    ∃ u, (∀ c ∈ u, isWsChar c = true) ∧ l = trimR l ++ u := by
  refine ⟨(l.reverse.takeWhile isWsChar).reverse, ?_, ?_⟩
  · intro c hc
    rw [List.mem_reverse] at hc
    exact List.mem_takeWhile_imp hc
  · conv_lhs => rw [← l.reverse_reverse]
    conv_lhs => rw [← List.takeWhile_append_dropWhile isWsChar l.reverse]
    rw [List.reverse_append]
    rfl

theorem trim_decomp (l : List Char) :
    ∃ w u, (∀ c ∈ w, isWsChar c = true) ∧ (∀ c ∈ u, isWsChar c = true) ∧
      l = w ++ trim l ++ u := by
  obtain ⟨w, hw, hwl⟩ := trimL_decomp l
  obtain ⟨u, hu, hul⟩ := trimR_decomp (trimL l)
  refine ⟨w, u, hw, hu, ?_⟩
  conv_lhs => rw [hwl, hul]
  simp [trim, List.append_assoc]

theorem trimR_length_le (l : List Char) : (trimR l).length ≤ l.length := by
  have h := dropWhile_length_le isWsChar l.reverse
  simpa [trimR] using h

theorem trim_length_le (l : List Char) : (trim l).length ≤ l.length :=
  le_trans (trimR_length_le (trimL l)) (dropWhile_length_le isWsChar l)

/-! ### Sentence-split lemmas -/

theorem sentAux_decomp (l : List Char) : ∀ (acc : List Char) (seen : Bool),
    (seen = false → ∀ c ∈ acc, isTermChar c = false) →
    ∃ lead tail, (∀ c ∈ lead, isTermChar c = true) ∧ (∀ c ∈ tail, isTermChar c = false) ∧
      (acc ≠ [] → lead = []) ∧
      acc.reverse ++ l = lead ++ (sentAux l acc seen).flatten ++ tail := by
  induction l with
  | nil =>
    intro acc seen hacc
    cases seen with
    | false =>
      refine ⟨[], acc.reverse, by simp, ?_, fun _ => rfl, by simp [sentAux]⟩
      intro c hc
      exact hacc rfl c (List.mem_reverse.mp hc)
    | true =>
      exact ⟨[], [], by simp, by simp, fun _ => rfl, by simp [sentAux]⟩
  | cons c rest ih =>
    intro acc seen hacc
    cases hterm : isTermChar c with
    | true =>
      cases acc with
      | nil =>
        obtain ⟨lead, tail, hlead, htail, _, heq⟩ := ih [] false (by simp)
        refine ⟨c :: lead, tail, ?_, htail, fun h => absurd rfl h, ?_⟩
        · intro x hx
          rcases List.mem_cons.mp hx with h | h
          · subst h; exact hterm
          · exact hlead x h
        · rw [show sentAux (c :: rest) [] seen = sentAux rest [] false by
            simp [sentAux, hterm]]
          simp only [List.reverse_nil, List.nil_append] at heq ⊢
          conv_lhs => rw [heq]
          simp [List.append_assoc]
      | cons a as =>
        obtain ⟨lead, tail, hlead, htail, hne, heq⟩ := ih (c :: a :: as) true (by simp)
        have hlead0 : lead = [] := hne (by simp)
        subst hlead0
        refine ⟨[], tail, by simp, htail, fun _ => rfl, ?_⟩
        rw [show sentAux (c :: rest) (a :: as) seen = sentAux rest (c :: a :: as) true by
          simp [sentAux, hterm]]
        simp only [List.nil_append] at heq ⊢
        calc (a :: as).reverse ++ c :: rest = (c :: a :: as).reverse ++ rest := by simp
          _ = _ := heq
    | false =>
      cases seen with
      | true =>
        have hc1 : (false : Bool) = false → ∀ x ∈ [c], isTermChar x = false := by
          intro _ x hx
          simp only [List.mem_singleton] at hx
          subst hx; exact hterm
        obtain ⟨lead, tail, hlead, htail, hne, heq⟩ := ih [c] false hc1
        have hlead0 : lead = [] := hne (by simp)
        subst hlead0
        refine ⟨[], tail, by simp, htail, fun _ => rfl, ?_⟩
        rw [show sentAux (c :: rest) acc true = acc.reverse :: sentAux rest [c] false by
          simp [sentAux, hterm]]
        simp only [List.nil_append] at heq ⊢
        simp only [List.flatten_cons]
        calc acc.reverse ++ c :: rest = acc.reverse ++ ([c].reverse ++ rest) := by simp
          _ = acc.reverse ++ ((sentAux rest [c] false).flatten ++ tail) := by rw [heq]
          _ = _ := by simp [List.append_assoc]
      | false =>
        have hc1 : (false : Bool) = false → ∀ x ∈ c :: acc, isTermChar x = false := by
          intro _ x hx
          rcases List.mem_cons.mp hx with h | h
          · subst h; exact hterm
          · exact hacc rfl x h
        obtain ⟨lead, tail, hlead, htail, hne, heq⟩ := ih (c :: acc) false hc1
        have hlead0 : lead = [] := hne (by simp)
        subst hlead0
        refine ⟨[], tail, by simp, htail, fun _ => rfl, ?_⟩
        rw [show sentAux (c :: rest) acc false = sentAux rest (c :: acc) false by
          simp [sentAux, hterm]]
        simp only [List.nil_append] at heq ⊢
        calc acc.reverse ++ c :: rest = (c :: acc).reverse ++ rest := by simp
          _ = _ := heq

theorem sentAux_ne_nil (l : List Char) : ∀ (acc : List Char) (seen : Bool),
    (seen = true → acc ≠ []) → ∀ s ∈ sentAux l acc seen, s ≠ [] := by
  induction l with
  | nil =>
    intro acc seen hacc s hs
    cases seen with
    | false => simp [sentAux] at hs
    | true =>
      rw [show sentAux [] acc true = [acc.reverse] by simp [sentAux]] at hs
      simp only [List.mem_singleton] at hs
      subst hs
      simpa using hacc rfl
  | cons c rest ih =>
    intro acc seen hacc s hs
    cases hterm : isTermChar c with
    | true =>
      cases acc with
      | nil =>
        rw [show sentAux (c :: rest) [] seen = sentAux rest [] false by
          simp [sentAux, hterm]] at hs
        exact ih [] false (by simp) s hs
      | cons a as =>
        rw [show sentAux (c :: rest) (a :: as) seen = sentAux rest (c :: a :: as) true by
          simp [sentAux, hterm]] at hs
        exact ih (c :: a :: as) true (by simp) s hs
    | false =>
      cases seen with
      | true =>
        rw [show sentAux (c :: rest) acc true = acc.reverse :: sentAux rest [c] false by
          simp [sentAux, hterm]] at hs
        rcases List.mem_cons.mp hs with h | h
        · subst h; simpa using hacc rfl
        · exact ih [c] false (by simp) s h
      | false =>
        rw [show sentAux (c :: rest) acc false = sentAux rest (c :: acc) false by
          simp [sentAux, hterm]] at hs
        exact ih (c :: acc) false (by simp) s hs

theorem sentencesOf_decomp (t : List Char) :
    ∃ lead tail, (∀ c ∈ lead, isTermChar c = true) ∧ (∀ c ∈ tail, isTermChar c = false) ∧
      t = lead ++ (sentencesOf t).flatten ++ tail := by
  cases h : splitSentences t with
  | nil =>
    refine ⟨[], [], by simp, by simp, ?_⟩
    simp [sentencesOf, h]
  | cons s ss =>
    obtain ⟨lead, tail, h1, h2, _, heq⟩ := sentAux_decomp t [] false (by simp)
    refine ⟨lead, tail, h1, h2, ?_⟩
    rw [show sentencesOf t = splitSentences t by simp [sentencesOf, h]]
    simpa [splitSentences] using heq

theorem sentencesOf_mem_ne_nil (t : List Char) (ht : t ≠ []) :
    ∀ s ∈ sentencesOf t, s ≠ [] := by
  intro s hs
  cases h : splitSentences t with
  | nil =>
    simp only [sentencesOf, h, List.mem_singleton] at hs
    subst hs; exact ht
  | cons a as =>
    rw [show sentencesOf t = splitSentences t by simp [sentencesOf, h]] at hs
    exact sentAux_ne_nil t [] false (by simp) s (by simpa [splitSentences] using hs)

theorem sentencesOf_ne_nil (t : List Char) : sentencesOf t ≠ [] := by
  cases h : splitSentences t with
  | nil => simp [sentencesOf, h]
  | cons a as => simp [sentencesOf, h]

theorem sentencesOf_flatten_length (t : List Char) :
    (sentencesOf t).flatten.length ≤ t.length := by
  obtain ⟨lead, tail, _, _, heq⟩ := sentencesOf_decomp t
  have h := congrArg List.length heq
  simp only [List.length_append] at h
  omega

/-! ### Segment-loop lemmas -/

theorem segLoop_small (m : Nat) : ∀ (ss : List (List Char)) (cur : List Char),
    cur.length + ss.flatten.length ≤ m →
    segLoop m ss cur
      = if (cur ++ ss.flatten).isEmpty then [] else [trim (cur ++ ss.flatten)] := by
  intro ss
  induction ss with
  | nil => intro cur _; simp [segLoop]
  | cons s rest ih =>
    intro cur h
    simp only [List.flatten_cons] at h ⊢
    have hlen : cur.length + (s.length + rest.flatten.length) ≤ m := by
      simpa [List.length_append] using h
    have hc : ¬(m < cur.length + s.length ∧ cur ≠ []) := by
      rintro ⟨h1, _⟩
      omega
    rw [show segLoop m (s :: rest) cur = segLoop m rest (cur ++ s) by simp [segLoop, hc]]
    rw [ih (cur ++ s) (by rw [List.length_append]; omega)]
    simp [List.append_assoc]

theorem segLoop_mem (m : Nat) (allS : List (List Char)) :
    ∀ (ss : List (List Char)) (cur : List Char),
      (∀ s ∈ ss, s ∈ allS) →
      (cur.length ≤ m ∨ cur ∈ allS) →
      ∀ seg ∈ segLoop m ss cur, seg.length ≤ m ∨ ∃ s ∈ allS, seg = trim s := by
  intro ss
  induction ss with
  | nil =>
    intro cur _ hcur seg hseg
    by_cases hE : cur.isEmpty = true
    · simp [segLoop, hE] at hseg
    · simp [segLoop, hE] at hseg
      subst hseg
      rcases hcur with h | h
      · exact Or.inl (le_trans (trim_length_le cur) h)
      · exact Or.inr ⟨cur, h, rfl⟩
  | cons s rest ih =>
    intro cur hss hcur seg hseg
    by_cases hc : m < cur.length + s.length ∧ cur ≠ []
    · rw [show segLoop m (s :: rest) cur = trim cur :: segLoop m rest s by
        simp [segLoop, hc]] at hseg
      rcases List.mem_cons.mp hseg with h | h
      · subst h
        rcases hcur with h' | h'
        · exact Or.inl (le_trans (trim_length_le cur) h')
        · exact Or.inr ⟨cur, h', rfl⟩
      · exact ih s (fun x hx => hss x (List.mem_cons_of_mem _ hx))
          (Or.inr (hss s (by simp))) seg h
    · rw [show segLoop m (s :: rest) cur = segLoop m rest (cur ++ s) by
        simp [segLoop, hc]] at hseg
      have hcur' : (cur ++ s).length ≤ m ∨ (cur ++ s) ∈ allS := by
        rcases not_and_or.mp hc with h | h
        · left
          rw [List.length_append]
          omega
        · have hc0 : cur = [] := not_not.mp h
          subst hc0
          right
          simpa using hss s (by simp)
      exact ih (cur ++ s) (fun x hx => hss x (List.mem_cons_of_mem _ hx)) hcur' seg hseg

/-! ### Interleaving lemmas -/

theorem interleaves_ws_append (segs : List (List Char)) (w u : List Char)
    (hw : ∀ c ∈ w, isWsChar c = true) (h : interleaves segs u) :
    interleaves segs (w ++ u) := by
  cases segs with
  | nil =>
    simp only [interleaves] at h ⊢
    intro c hc
    rcases List.mem_append.mp hc with h' | h'
    · exact hw c h'
    · exact h c h'
  | cons s rest =>
    simp only [interleaves] at h ⊢
    obtain ⟨w0, u0, hw0, hu, hrest⟩ := h
    refine ⟨w ++ w0, u0, ?_, ?_, hrest⟩
    · intro c hc
      rcases List.mem_append.mp hc with h' | h'
      · exact hw c h'
      · exact hw0 c h'
    · rw [hu]; simp [List.append_assoc]

theorem segLoop_inter (m : Nat) : ∀ (ss : List (List Char)) (cur : List Char),
    interleaves (segLoop m ss cur) (cur ++ ss.flatten) := by
  intro ss
  induction ss with
  | nil =>
    intro cur
    by_cases hE : cur.isEmpty = true
    · have hc0 : cur = [] := by simpa using hE
      subst hc0
      simp [segLoop, interleaves]
    · rw [show segLoop m [] cur = [trim cur] by simp [segLoop, hE]]
      obtain ⟨w, u, hw, hu, heq⟩ := trim_decomp cur
      simp only [interleaves, List.flatten_nil, List.append_nil]
      exact ⟨w, u, hw, heq, hu⟩
  | cons s rest ih =>
    intro cur
    by_cases hc : m < cur.length + s.length ∧ cur ≠ []
    · rw [show segLoop m (s :: rest) cur = trim cur :: segLoop m rest s by
        simp [segLoop, hc]]
      simp only [interleaves, List.flatten_cons]
      obtain ⟨w, u, hw, hu, heq⟩ := trim_decomp cur
      refine ⟨w, u ++ (s ++ rest.flatten), hw, ?_, ?_⟩
      · conv_lhs => rw [heq]
        simp [List.append_assoc]
      · exact interleaves_ws_append _ u _ hu (ih s)
  -- heq names fixed below
    · rw [show segLoop m (s :: rest) cur = segLoop m rest (cur ++ s) by
        simp [segLoop, hc]]
      have h := ih (cur ++ s)
      simpa [List.append_assoc] using h

theorem interleaves_mem (segs : List (List Char)) : ∀ (t : List Char),
    interleaves segs t → ∀ c ∈ t, isWsChar c = false → c ∈ segs.flatten := by
  induction segs with
  | nil =>
    intro t h c hc hw
    simp only [interleaves] at h
    simp [h c hc] at hw
  | cons s rest ih =>
    intro t h c hc hw
    simp only [interleaves] at h
    obtain ⟨w, u, hws, heq, hrest⟩ := h
    subst heq
    simp only [List.flatten_cons, List.mem_append]
    rcases List.mem_append.mp hc with h' | h'
    · rcases List.mem_append.mp h' with h'' | h''
      · simp [hws c h''] at hw
      · exact Or.inl h''
    · exact Or.inr (ih u hrest c h' hw)

/-! ### Retry-loop lemmas -/

theorem retryFrom_waits (primary fallback : Nat → Except (List Char) (List Nat))
    (maxR : Nat) : ∀ (remaining attempt fbCount : Nat) (le : Option (List Char))
      (ws : List Nat),
    (maxR < attempt →
      (retryFrom primary fallback maxR remaining attempt fbCount le ws).waits = ws.reverse) ∧
    ∃ k, (retryFrom primary fallback maxR remaining attempt fbCount le ws).waits
      = ws.reverse ++ (List.range k).map (fun i => min (5000 * (attempt + i)) 15000) := by
  intro remaining
  induction remaining with
  | zero =>
    intro attempt fbCount le ws
    exact ⟨fun _ => rfl, 0, by simp [retryFrom]⟩
  | succ rem ih =>
    intro attempt fbCount le ws
    cases hp : primary attempt with
    | ok buf =>
      refine ⟨fun _ => ?_, 0, ?_⟩ <;> simp [retryFrom, hp]
    | error e =>
      by_cases hcond : attempt = maxR ∨ isTimeoutMsg e = true
      · cases hf : fallback (fbCount + 1) with
        | ok buf =>
          refine ⟨fun _ => ?_, 0, ?_⟩ <;> simp [retryFrom, hp, hcond, hf]
        | error de =>
          by_cases hlt : attempt < maxR
          · have hstep : retryFrom primary fallback maxR (rem + 1) attempt fbCount le ws
                = retryFrom primary fallback maxR rem (attempt + 1) (fbCount + 1) (some de)
                    (min (5000 * attempt) 15000 :: ws) := by
              simp [retryFrom, hp, hcond, hf, hlt]
            rw [hstep]
            refine ⟨fun h => absurd hlt (by omega), ?_⟩
            obtain ⟨-, k, hk⟩ := ih (attempt + 1) (fbCount + 1) (some de)
              (min (5000 * attempt) 15000 :: ws)
            refine ⟨k + 1, ?_⟩
            have hmap : List.map (fun i => min (5000 * (attempt + 1 + i)) 15000) (List.range k)
                = List.map ((fun i => min (5000 * (attempt + i)) 15000) ∘ Nat.succ)
                    (List.range k) := by
              apply List.map_congr_left
              intro i _
              simp only [Function.comp]
              have h : attempt + 1 + i = attempt + (i + 1) := by omega
              rw [h]
            rw [hk, hmap]
            rw [List.reverse_cons, List.range_succ_eq_map, List.map_cons, List.map_map]
            simp [List.append_assoc]
          · have hstep : retryFrom primary fallback maxR (rem + 1) attempt fbCount le ws
                = retryFrom primary fallback maxR rem (attempt + 1) (fbCount + 1) (some de) ws := by
              simp [retryFrom, hp, hcond, hf, hlt]
            rw [hstep]
            have hgt : maxR < attempt + 1 := by omega
            have hw := (ih (attempt + 1) (fbCount + 1) (some de) ws).1 hgt
            exact ⟨fun _ => hw, 0, by simpa using hw⟩
      · by_cases hlt : attempt < maxR
        · have hstep : retryFrom primary fallback maxR (rem + 1) attempt fbCount le ws
              = retryFrom primary fallback maxR rem (attempt + 1) fbCount (some e)
                  (min (5000 * attempt) 15000 :: ws) := by
            simp [retryFrom, hp, hcond, hlt]
          rw [hstep]
          refine ⟨fun h => absurd hlt (by omega), ?_⟩
          obtain ⟨-, k, hk⟩ := ih (attempt + 1) fbCount (some e)
            (min (5000 * attempt) 15000 :: ws)
          refine ⟨k + 1, ?_⟩
          have hmap : List.map (fun i => min (5000 * (attempt + 1 + i)) 15000) (List.range k)
              = List.map ((fun i => min (5000 * (attempt + i)) 15000) ∘ Nat.succ)
                  (List.range k) := by
            apply List.map_congr_left
            intro i _
            simp only [Function.comp]
            have h : attempt + 1 + i = attempt + (i + 1) := by omega
            rw [h]
          rw [hk, hmap]
          rw [List.reverse_cons, List.range_succ_eq_map, List.map_cons, List.map_map]
          simp [List.append_assoc]
        · have hstep : retryFrom primary fallback maxR (rem + 1) attempt fbCount le ws
              = retryFrom primary fallback maxR rem (attempt + 1) fbCount (some e) ws := by
            simp [retryFrom, hp, hcond, hlt]
          rw [hstep]
          have hgt : maxR < attempt + 1 := by omega
          have hw := (ih (attempt + 1) fbCount (some e) ws).1 hgt
          exact ⟨fun _ => hw, 0, by simpa using hw⟩

theorem retryLoop_waits (primary fallback : Nat → Except (List Char) (List Nat))
    (maxR : Nat) :
    ∃ k, (retryLoop primary fallback maxR).waits
      = (List.range k).map (fun i => min (5000 * (1 + i)) 15000) := by
  obtain ⟨-, k, h⟩ := retryFrom_waits primary fallback maxR maxR 1 0 none []
  exact ⟨k, by simpa using h⟩

/-! ### mapM and filterMap lemmas -/

theorem collectSegs_error (f : List Char → Except (List Char) (List Nat)) :
    ∀ (l : List (List Char)), (∃ s ∈ l, ∃ e, f s = .error e) →
    ∃ e', collectSegs f l = .error e' := by
  intro l
  induction l with
  | nil =>
    rintro ⟨s, hs, -⟩
    simp at hs
  | cons a rest ih =>
    rintro ⟨s, hs, e, hfe⟩
    rcases List.mem_cons.mp hs with h | h
    · subst h
      exact ⟨e, by simp [collectSegs, hfe]⟩
    · cases hf : f a with
      | error e2 => exact ⟨e2, by simp [collectSegs, hf]⟩
      | ok b =>
        obtain ⟨e', he'⟩ := ih ⟨s, h, e, hfe⟩
        exact ⟨e', by simp [collectSegs, hf, he']⟩

theorem filterMap_all_some (g : DialogueItem → Option (List Nat))
    (audio : DialogueItem → List Nat) :
    ∀ (d : List DialogueItem), (∀ item ∈ d, g item = some (audio item)) →
    d.filterMap g = d.map audio := by
  intro d
  induction d with
  | nil => intro _; rfl
  | cons a rest ih =>
    intro h
    rw [List.filterMap_cons, h a (by simp)]
    rw [ih (fun x hx => h x (List.mem_cons_of_mem _ hx))]
    simp

/-! ### mapWithIdx lemmas -/

theorem mapWithIdx_length (f : Nat → DialogueItem → DialogueItem) :
    ∀ (l : List DialogueItem) (k : Nat), (mapWithIdx f k l).length = l.length := by
  intro l
  induction l with
  | nil => intro k; rfl
  | cons a rest ih => intro k; simp [mapWithIdx, ih]

theorem mapWithIdx_getElem (f : Nat → DialogueItem → DialogueItem) :
    ∀ (l : List DialogueItem) (k i : Nat),
      (mapWithIdx f k l)[i]? = (l[i]?).map (f (k + i)) := by
  intro l
  induction l with
  | nil => intro k i; simp [mapWithIdx]
  | cons a rest ih =>
    intro k i
    cases i with
    | zero => simp [mapWithIdx]
    | succ j =>
      simp only [mapWithIdx, List.getElem?_cons_succ]
      rw [ih (k + 1) j]
      have hidx : k + 1 + j = k + (j + 1) := by omega
      rw [hidx]

/-! ### Single over-length sentence lemmas -/

theorem sentAux_one_sentence (n : Nat) : ∀ (acc : List Char), acc ≠ [] →
    sentAux (List.replicate n 'a' ++ ['.']) acc false
      = [acc.reverse ++ (List.replicate n 'a' ++ ['.'])] := by
  induction n with
  | zero =>
    intro acc hacc
    match acc, hacc with
    | a :: as, _ =>
      simp [sentAux, isTermChar]
  | succ k ih =>
    intro acc hacc
    rw [List.replicate_succ]
    rw [show sentAux (('a' :: List.replicate k 'a') ++ ['.']) acc false
        = sentAux (List.replicate k 'a' ++ ['.']) ('a' :: acc) false by
      simp [sentAux, isTermChar]]
    rw [ih ('a' :: acc) (by simp)]
    simp [List.append_assoc]

theorem trim_one_sentence (k : Nat) :
    trim (List.replicate (k + 1) 'a' ++ ['.']) = List.replicate (k + 1) 'a' ++ ['.'] := by
  have hwa : isWsChar 'a' = false := by decide
  have hwd : isWsChar '.' = false := by decide
  have h1 : trimL (List.replicate (k + 1) 'a' ++ ['.']) = List.replicate (k + 1) 'a' ++ ['.'] := by
    rw [List.replicate_succ]
    simp [trimL, List.dropWhile_cons, hwa]
  have h2 : trimR (List.replicate (k + 1) 'a' ++ ['.']) = List.replicate (k + 1) 'a' ++ ['.'] := by
    unfold trimR
    rw [List.reverse_append, List.reverse_replicate]
    simp only [List.reverse_cons, List.reverse_nil, List.nil_append, List.singleton_append]
    rw [List.dropWhile_cons]
    simp [hwd, List.reverse_replicate]
  simp [trim, h1, h2]

theorem splitTextIntoSegments_one_sentence (k m : Nat) :
    splitTextIntoSegments (List.replicate (k + 1) 'a' ++ ['.']) m
      = [List.replicate (k + 1) 'a' ++ ['.']] := by
  have hsent : splitSentences (List.replicate (k + 1) 'a' ++ ['.'])
      = [List.replicate (k + 1) 'a' ++ ['.']] := by
    unfold splitSentences
    rw [List.replicate_succ]
    rw [show sentAux (('a' :: List.replicate k 'a') ++ ['.']) [] false
        = sentAux (List.replicate k 'a' ++ ['.']) ['a'] false by
      simp [sentAux, isTermChar]]
    rw [sentAux_one_sentence k ['a'] (by simp)]
    simp
  have hSof : sentencesOf (List.replicate (k + 1) 'a' ++ ['.'])
      = [List.replicate (k + 1) 'a' ++ ['.']] := by
    simp [sentencesOf, hsent]
  unfold splitTextIntoSegments
  rw [hSof]
  rw [show segLoop m [List.replicate (k + 1) 'a' ++ ['.']] []
      = segLoop m [] ([] ++ (List.replicate (k + 1) 'a' ++ ['.'])) by simp [segLoop]]
  simp only [List.nil_append]
  rw [show segLoop m [] (List.replicate (k + 1) 'a' ++ ['.'])
      = [trim (List.replicate (k + 1) 'a' ++ ['.'])] by
    rw [List.replicate_succ]
    simp [segLoop]]
  rw [trim_one_sentence]

/-! ### Claim C6 -/

/-- C6 (corrected): for `len(t) ≤ ceiling` the splitter returns a single
segment, but that segment is the whitespace-trim of the concatenation of
the sentence matches of `t` (which equals `t` itself only when `t` is
exactly covered by its sentence matches and carries no surrounding
whitespace), not always `[t]` as claimed. -/
theorem C6_single_segment (t : List Char) (m : Nat) (ht : t ≠ []) (hlen : t.length ≤ m) :
    splitTextIntoSegments t m = [trim (sentencesOf t).flatten] := by
  unfold splitTextIntoSegments
  rw [segLoop_small m (sentencesOf t) []
    (by simpa using le_trans (sentencesOf_flatten_length t) hlen)]
  have hne : (sentencesOf t).flatten ≠ [] := by
    rcases hs : sentencesOf t with _ | ⟨s0, rest⟩
    · exact absurd hs (sentencesOf_ne_nil t)
    · have h0 : s0 ≠ [] := sentencesOf_mem_ne_nil t ht s0 (by rw [hs]; simp)
      simp only [List.flatten_cons]
      intro hcontra
      rcases List.append_eq_nil.mp hcontra with ⟨h1, -⟩
      exact h0 h1
  have hne' : ((sentencesOf t).flatten).isEmpty = false := by
    cases h : (sentencesOf t).flatten
    · exact absurd h hne
    · rfl
  simp [hne']

/-- C6 witness: a text that is exactly one sentence with no surrounding
whitespace, where the single segment is the trimmed sentence join. -/
theorem C6_single_segment_witness :
    (("Hello.".toList : List Char) ≠ [] ∧ ("Hello.".toList).length ≤ 100) ∧
    splitTextIntoSegments ("Hello.".toList) 100
      = [trim (sentencesOf ("Hello.".toList)).flatten] :=
  ⟨⟨by decide, by decide⟩, C6_single_segment ("Hello.".toList) 100 (by decide) (by decide)⟩

/-- C6 counterexample: `t = "a. b"` with ceiling 10 satisfies
`len(t) ≤ ceiling`, yet the splitter returns `["a."]` (the regex drops the
trailing `" b"`, which has no sentence terminator), not `[t]`. -/
theorem C6_counterexample :
    ("a. b".toList).length ≤ 10 ∧
    splitTextIntoSegments ("a. b".toList) 10 ≠ [("a. b".toList)] ∧
    splitTextIntoSegments ("a. b".toList) 10 = ["a.".toList] :=
  ⟨by decide, by decide, by decide⟩

/-! ### Claim C2 -/

/-- C2 (corrected): for `len(t) > ceiling`, every emitted segment either
respects the ceiling or is the trim of a single sentence that alone
exceeds it (also in non-final position); and the segments reconstruct,
up to whitespace trimmed at split points, the sentence-covered portion of
`t` — `t` itself equals that portion surrounded by a run of leading
terminators and a terminator-free trailing remainder, both dropped by the
sentence regex. -/
theorem C2_segment_properties (t : List Char) (m : Nat) (hlen : m < t.length) :
    (∀ seg ∈ splitTextIntoSegments t m,
      seg.length ≤ m ∨ ∃ s ∈ sentencesOf t, seg = trim s) ∧
    interleaves (splitTextIntoSegments t m) (sentencesOf t).flatten ∧
    ∃ lead tail, (∀ c ∈ lead, isTermChar c = true) ∧ (∀ c ∈ tail, isTermChar c = false) ∧
      t = lead ++ (sentencesOf t).flatten ++ tail := by
  refine ⟨?_, ?_, sentencesOf_decomp t⟩
  · intro seg hseg
    exact segLoop_mem m (sentencesOf t) (sentencesOf t) [] (fun s hs => hs)
      (Or.inl (by simp)) seg hseg
  · have h := segLoop_inter m (sentencesOf t) []
    simpa using h

/-- C2 witness: the spec's own scenario, `"Hello world. This is a test."`
with ceiling 15. -/
theorem C2_segment_properties_witness :
    15 < ("Hello world. This is a test.".toList).length ∧
    ((∀ seg ∈ splitTextIntoSegments ("Hello world. This is a test.".toList) 15,
        seg.length ≤ 15 ∨
          ∃ s ∈ sentencesOf ("Hello world. This is a test.".toList), seg = trim s) ∧
      interleaves (splitTextIntoSegments ("Hello world. This is a test.".toList) 15)
        (sentencesOf ("Hello world. This is a test.".toList)).flatten ∧
      ∃ lead tail, (∀ c ∈ lead, isTermChar c = true) ∧
        (∀ c ∈ tail, isTermChar c = false) ∧
        "Hello world. This is a test.".toList
          = lead ++ (sentencesOf ("Hello world. This is a test.".toList)).flatten ++ tail) :=
  ⟨by decide, C2_segment_properties ("Hello world. This is a test.".toList) 15 (by decide)⟩

/-- C2 counterexample: `t = "aaaaaa.b.XYZ"` with ceiling 5 produces
segments `["aaaaaa.", "b."]`: the first (non-final) segment has length
7 > 5, and no whitespace reinsertion can reconstruct `t` because the
dropped suffix `"XYZ"` appears in no segment. -/
theorem C2_counterexample :
    5 < ("aaaaaa.b.XYZ".toList).length ∧
    (∃ seg ∈ (splitTextIntoSegments ("aaaaaa.b.XYZ".toList) 5).dropLast, 5 < seg.length) ∧
    ¬ interleaves (splitTextIntoSegments ("aaaaaa.b.XYZ".toList) 5)
        ("aaaaaa.b.XYZ".toList) := by
  refine ⟨by decide, by decide, ?_⟩
  intro h
  have hx := interleaves_mem _ _ h 'X' (by decide) (by decide)
  revert hx
  decide

/-! ### Claim C3 -/

/-- C3 (corrected): the whole-script retry path always submits at most
9900 characters (the optimizer returns the script unchanged when short
enough and hard-truncates otherwise); but on the segmented per-turn path a
submitted segment is only guaranteed to be either within the 2500-character
per-turn ceiling or the trim of a single sentence that alone exceeds the
ceiling — such a sentence is submitted whole and may exceed any ceiling. -/
theorem C3_ceiling (llm : List Char → List Char) (script text : List Char) :
    (optimizeScriptForAudio llm script 9900).length ≤ 9900 ∧
    (∀ s ∈ submittedTextsWithVoice text,
      s.length ≤ 2500 ∨ ∃ sent ∈ sentencesOf text, s = trim sent) := by
  constructor
  · rw [optimizeScriptForAudio]
    by_cases h1 : script.length ≤ 9900
    · rw [if_pos h1]; exact h1
    · rw [if_neg h1]
      simp only []
      by_cases h2 : 9900 < (llm script).length
      · rw [if_pos h2]
        rw [List.length_append, List.length_take]
        have hsuf : truncationSuffix.length = 24 := by decide
        rw [hsuf]
        have hmin := min_le_left ((9900 : Nat) - 50) (llm script).length
        omega
      · rw [if_neg h2]
        omega
  · intro s hs
    unfold submittedTextsWithVoice at hs
    by_cases hl : 2500 < text.length
    · rw [if_pos hl] at hs
      exact segLoop_mem 2500 (sentencesOf text) (sentencesOf text) [] (fun x hx => hx)
        (Or.inl (by simp)) s hs
    · rw [if_neg hl] at hs
      simp only [List.mem_singleton] at hs
      subst hs
      left
      omega

/-- C3 witness: a short turn is submitted unchanged and within both
ceilings. -/
theorem C3_ceiling_witness :
    ("Hi.".toList ∈ submittedTextsWithVoice ("Hi.".toList)) ∧
    (("Hi.".toList : List Char).length ≤ 2500 ∨
      ∃ sent ∈ sentencesOf ("Hi.".toList), "Hi.".toList = trim sent) :=
  ⟨by decide, (C3_ceiling id ("Hi.".toList) ("Hi.".toList)).2 ("Hi.".toList) (by decide)⟩

/-- C3 counterexample: a dialogue turn consisting of one 9902-character
sentence reaches a single transport call whole on the per-turn path,
exceeding the ~9900-character ceiling (and the provider's 10000 limit
headroom the ceiling was meant to keep). -/
theorem C3_counterexample :
    submittedTextsWithVoice (List.replicate 9901 'a' ++ ['.'])
      = [List.replicate 9901 'a' ++ ['.']] ∧
    (List.replicate 9901 'a' ++ ['.']).length = 9902 := by
  have hlen : (List.replicate 9901 'a' ++ ['.']).length = 9902 := by
    rw [List.length_append, List.length_replicate]
    rfl
  constructor
  · unfold submittedTextsWithVoice
    rw [if_pos (by rw [hlen]; omega)]
    have h : (9901 : Nat) = 9900 + 1 := by norm_num
    rw [h]
    exact splitTextIntoSegments_one_sentence 9900 2500
  · exact hlen

/-! ### Retry-loop step lemmas -/

theorem retryFrom_zero (p f : Nat → Except (List Char) (List Nat))
    (maxR attempt fb : Nat) (le : Option (List Char)) (ws : List Nat) :
    retryFrom p f maxR 0 attempt fb le ws
      = ⟨attempt - 1, fb, ws.reverse, .error (failMsg maxR le)⟩ := rfl

theorem retryFrom_ok (p f : Nat → Except (List Char) (List Nat))
    (maxR rem attempt fb : Nat) (le : Option (List Char)) (ws : List Nat)
    (buf : List Nat) (h : p attempt = .ok buf) :
    retryFrom p f maxR (rem + 1) attempt fb le ws
      = ⟨attempt, fb, ws.reverse, .ok buf⟩ := by
  simp [retryFrom, h]

theorem retryFrom_fb_ok (p f : Nat → Except (List Char) (List Nat))
    (maxR rem attempt fb : Nat) (le : Option (List Char)) (ws : List Nat)
    (e : List Char) (buf : List Nat) (h : p attempt = .error e)
    (hcond : attempt = maxR ∨ isTimeoutMsg e = true) (hf : f (fb + 1) = .ok buf) :
    retryFrom p f maxR (rem + 1) attempt fb le ws
      = ⟨attempt, fb + 1, ws.reverse, .ok buf⟩ := by
  simp [retryFrom, h, hcond, hf]

theorem retryFrom_fb_err_continue (p f : Nat → Except (List Char) (List Nat))
    (maxR rem attempt fb : Nat) (le : Option (List Char)) (ws : List Nat)
    (e de : List Char) (h : p attempt = .error e)
    (hcond : attempt = maxR ∨ isTimeoutMsg e = true) (hf : f (fb + 1) = .error de)
    (hlt : attempt < maxR) :
    retryFrom p f maxR (rem + 1) attempt fb le ws
      = retryFrom p f maxR rem (attempt + 1) (fb + 1) (some de)
          (min (5000 * attempt) 15000 :: ws) := by
  simp [retryFrom, h, hcond, hf, hlt]

theorem retryFrom_fb_err_stop (p f : Nat → Except (List Char) (List Nat))
    (maxR rem attempt fb : Nat) (le : Option (List Char)) (ws : List Nat)
    (e de : List Char) (h : p attempt = .error e)
    (hcond : attempt = maxR ∨ isTimeoutMsg e = true) (hf : f (fb + 1) = .error de)
    (hlt : ¬attempt < maxR) :
    retryFrom p f maxR (rem + 1) attempt fb le ws
      = retryFrom p f maxR rem (attempt + 1) (fb + 1) (some de) ws := by
  simp [retryFrom, h, hcond, hf, hlt]

theorem retryFrom_err_continue (p f : Nat → Except (List Char) (List Nat))
    (maxR rem attempt fb : Nat) (le : Option (List Char)) (ws : List Nat)
    (e : List Char) (h : p attempt = .error e)
    (hcond : ¬(attempt = maxR ∨ isTimeoutMsg e = true)) (hlt : attempt < maxR) :
    retryFrom p f maxR (rem + 1) attempt fb le ws
      = retryFrom p f maxR rem (attempt + 1) fb (some e)
          (min (5000 * attempt) 15000 :: ws) := by
  simp [retryFrom, h, hcond, hlt]

/-! ### Claim C1 -/

/-- C1 (corrected): with a primary transport that times out on every
attempt, escalation happens on the very first attempt — when the fallback
then succeeds it is invoked exactly once with a single primary attempt
(retry counter not exhausted).  But when the fallback also fails, the
orchestrator does not terminate after that single fallback failure: it
keeps retrying, making all 3 primary attempts and invoking the fallback
once per attempt (3 invocations), and only then fails with a message
surfacing the last (fallback) error. -/
theorem C1_escalation (primary fallback : Nat → Except (List Char) (List Nat))
    (hp : ∀ n, ∃ m, primary n = .error m ∧ isTimeoutMsg m = true) :
    (∀ buf, fallback 1 = .ok buf →
      retryLoop primary fallback 3 = ⟨1, 1, [], .ok buf⟩) ∧
    ((∀ k, ∃ m, fallback k = .error m) →
      (retryLoop primary fallback 3).primaryCalls = 3 ∧
      (retryLoop primary fallback 3).fallbackCalls = 3 ∧
      ∃ m, fallback 3 = .error m ∧
        (retryLoop primary fallback 3).result = .error (failMsg 3 (some m))) := by
  obtain ⟨m1, hp1, ht1⟩ := hp 1
  obtain ⟨m2, hp2, ht2⟩ := hp 2
  obtain ⟨m3, hp3, ht3⟩ := hp 3
  constructor
  · intro buf hf
    calc retryLoop primary fallback 3
        = retryFrom primary fallback 3 (2 + 1) 1 0 none [] := rfl
      _ = ⟨1, 0 + 1, ([] : List Nat).reverse, .ok buf⟩ :=
          retryFrom_fb_ok primary fallback 3 2 1 0 none [] m1 buf hp1 (Or.inr ht1) hf
      _ = ⟨1, 1, [], .ok buf⟩ := rfl
  · intro hfb
    obtain ⟨d1, hf1⟩ := hfb 1
    obtain ⟨d2, hf2⟩ := hfb 2
    obtain ⟨d3, hf3⟩ := hfb 3
    have trace : retryLoop primary fallback 3
        = ⟨3, 3, [min (5000 * 1) 15000, min (5000 * 2) 15000],
            .error (failMsg 3 (some d3))⟩ := by
      calc retryLoop primary fallback 3
          = retryFrom primary fallback 3 (2 + 1) 1 0 none [] := rfl
        _ = retryFrom primary fallback 3 2 2 1 (some d1) [min (5000 * 1) 15000] :=
            retryFrom_fb_err_continue primary fallback 3 2 1 0 none [] m1 d1 hp1
              (Or.inr ht1) hf1 (by omega)
        _ = retryFrom primary fallback 3 (1 + 1) 2 1 (some d1) [min (5000 * 1) 15000] := rfl
        _ = retryFrom primary fallback 3 1 3 2 (some d2)
              (min (5000 * 2) 15000 :: [min (5000 * 1) 15000]) :=
            retryFrom_fb_err_continue primary fallback 3 1 2 1 (some d1)
              [min (5000 * 1) 15000] m2 d2 hp2 (Or.inr ht2) hf2 (by omega)
        _ = retryFrom primary fallback 3 (0 + 1) 3 2 (some d2)
              [min (5000 * 2) 15000, min (5000 * 1) 15000] := rfl
        _ = retryFrom primary fallback 3 0 4 3 (some d3)
              [min (5000 * 2) 15000, min (5000 * 1) 15000] :=
            retryFrom_fb_err_stop primary fallback 3 0 3 2 (some d2)
              [min (5000 * 2) 15000, min (5000 * 1) 15000] m3 d3 hp3
              (Or.inl rfl) hf3 (by omega)
        _ = ⟨4 - 1, 3, ([min (5000 * 2) 15000, min (5000 * 1) 15000] : List Nat).reverse,
              .error (failMsg 3 (some d3))⟩ := retryFrom_zero primary fallback 3 4 3 (some d3) _
        _ = ⟨3, 3, [min (5000 * 1) 15000, min (5000 * 2) 15000],
              .error (failMsg 3 (some d3))⟩ := rfl
    exact ⟨by rw [trace], by rw [trace], d3, hf3, by rw [trace]⟩

/-- C1 witness: an always-timing-out primary whose fallback succeeds
first time gives exactly one fallback call after one primary attempt. -/
theorem C1_escalation_witness :
    (∀ n : Nat, ∃ m, (fun _ : Nat =>
        (Except.error ("Audio generation timeout after 300s".toList)
          : Except (List Char) (List Nat))) n
      = .error m ∧ isTimeoutMsg m = true) ∧
    retryLoop (fun _ => .error ("Audio generation timeout after 300s".toList))
        (fun _ => .ok [1]) 3
      = ⟨1, 1, [], .ok [1]⟩ := by
  have hp : ∀ n : Nat, ∃ m, (fun _ : Nat =>
      (Except.error ("Audio generation timeout after 300s".toList)
        : Except (List Char) (List Nat))) n
      = .error m ∧ isTimeoutMsg m = true :=
    fun _ => ⟨"Audio generation timeout after 300s".toList, rfl, by decide⟩
  exact ⟨hp, (C1_escalation _ _ hp).1 [1] rfl⟩

/-- C1 counterexample: always-timing-out primary plus always-failing
fallback — the fallback is invoked three times, not once, and the primary
retry counter is fully exhausted before the call fails. -/
theorem C1_counterexample :
    (retryLoop (fun _ => .error ("Audio generation timeout after 300s".toList))
        (fun _ => .error ("direct API failed".toList)) 3).fallbackCalls = 3 ∧
    (retryLoop (fun _ => .error ("Audio generation timeout after 300s".toList))
        (fun _ => .error ("direct API failed".toList)) 3).primaryCalls = 3 := by
  exact ⟨by decide, by decide⟩

/-! ### Claim C8 -/

/-- C8 (confirmed): with a transport failing twice retryably (non-timeout)
then succeeding, the orchestrator succeeds with waits `[5000, 10000]` ms
and never touches the fallback; these are `min(5000·n, 15000)` for
attempts n = 1, 2, and in general every recorded wait before attempt
`n + 1` follows that formula. -/
theorem C8_backoff (primary fallback : Nat → Except (List Char) (List Nat))
    (e1 e2 : List Char) (buf : List Nat)
    (h1 : primary 1 = .error e1) (h2 : primary 2 = .error e2) (h3 : primary 3 = .ok buf)
    (ht1 : isTimeoutMsg e1 = false) (ht2 : isTimeoutMsg e2 = false) :
    retryLoop primary fallback 3 = ⟨3, 0, [5000, 10000], .ok buf⟩ ∧
    (5000 = min (5000 * 1) 15000 ∧ 10000 = min (5000 * 2) 15000) ∧
    ∀ (p f : Nat → Except (List Char) (List Nat)) (mr : Nat),
      ∃ k, (retryLoop p f mr).waits
        = (List.range k).map (fun i => min (5000 * (1 + i)) 15000) := by
  refine ⟨?_, ⟨by norm_num, by norm_num⟩, fun p f mr => retryLoop_waits p f mr⟩
  calc retryLoop primary fallback 3
      = retryFrom primary fallback 3 (2 + 1) 1 0 none [] := rfl
    _ = retryFrom primary fallback 3 2 2 0 (some e1) [min (5000 * 1) 15000] :=
        retryFrom_err_continue primary fallback 3 2 1 0 none [] e1 h1
          (by simp [ht1]) (by omega)
    _ = retryFrom primary fallback 3 (1 + 1) 2 0 (some e1) [min (5000 * 1) 15000] := rfl
    _ = retryFrom primary fallback 3 1 3 0 (some e2)
          (min (5000 * 2) 15000 :: [min (5000 * 1) 15000]) :=
        retryFrom_err_continue primary fallback 3 1 2 0 (some e1)
          [min (5000 * 1) 15000] e2 h2 (by simp [ht2]) (by omega)
    _ = retryFrom primary fallback 3 (0 + 1) 3 0 (some e2)
          [min (5000 * 2) 15000, min (5000 * 1) 15000] := rfl
    _ = ⟨3, 0, ([min (5000 * 2) 15000, min (5000 * 1) 15000] : List Nat).reverse, .ok buf⟩ :=
        retryFrom_ok primary fallback 3 0 3 0 (some e2)
          [min (5000 * 2) 15000, min (5000 * 1) 15000] buf h3
    _ = ⟨3, 0, [5000, 10000], .ok buf⟩ := by norm_num

/-- C8 witness: concrete transport failing twice (non-timeout) then
succeeding. -/
theorem C8_backoff_witness :
    ((fun n : Nat => if n ≤ 2 then (Except.error ("server error".toList)
        : Except (List Char) (List Nat)) else .ok [1, 2]) 1
      = .error ("server error".toList) ∧
     isTimeoutMsg ("server error".toList) = false) ∧
    retryLoop (fun n => if n ≤ 2 then .error ("server error".toList) else .ok [1, 2])
        (fun _ => .error ("fb".toList)) 3
      = ⟨3, 0, [5000, 10000], .ok [1, 2]⟩ := by
  refine ⟨⟨rfl, by decide⟩, ?_⟩
  exact (C8_backoff _ _ ("server error".toList) ("server error".toList) [1, 2]
    rfl rfl rfl (by decide) (by decide)).1

/-! ### Claim C9 -/

/-- C9 (confirmed): once a call for `(text, voiceId)` has produced an
AudioChunk, a second call with the identical pair is served from the
cache: it returns the same buffer with zero primary and zero fallback
transport invocations, and leaves the cache unchanged. -/
theorem C9_cache_idempotent (hash llm : List Char → List Char)
    (primaryT fallbackT : List Char → Nat → Except (List Char) (List Nat))
    (voiceId : List Char) (maxRetries : Nat)
    (cache : List (List Char × List Nat)) (script : List Char) (buf : List Nat)
    (h : (generatePodcastAudioWithRetryM hash llm primaryT fallbackT voiceId maxRetries
        cache script).1.result = .ok buf) :
    (generatePodcastAudioWithRetryM hash llm primaryT fallbackT voiceId maxRetries
        (generatePodcastAudioWithRetryM hash llm primaryT fallbackT voiceId maxRetries
          cache script).2 script).1
      = ⟨0, 0, [], .ok buf⟩ ∧
    (generatePodcastAudioWithRetryM hash llm primaryT fallbackT voiceId maxRetries
        (generatePodcastAudioWithRetryM hash llm primaryT fallbackT voiceId maxRetries
          cache script).2 script).2
      = (generatePodcastAudioWithRetryM hash llm primaryT fallbackT voiceId maxRetries
          cache script).2 := by
  unfold generatePodcastAudioWithRetryM at h ⊢
  cases hc : cacheGet cache (hash (script ++ voiceId)) with
  | some b =>
    simp only [hc] at h ⊢
    simp only [Except.ok.injEq] at h
    subst h
    constructor <;> trivial
  | none =>
    simp only [hc] at h ⊢
    cases hr : (retryLoop (primaryT (optimizeScriptForAudio llm script 9900))
        (fallbackT (optimizeScriptForAudio llm script 9900)) maxRetries).result with
    | error e =>
      simp only [hr] at h
      exact absurd h (by simp)
    | ok b =>
      simp only [hr] at h ⊢
      simp only [Except.ok.injEq] at h
      subst h
      have hget : cacheGet (cacheSet cache (hash (script ++ voiceId)) b)
          (hash (script ++ voiceId)) = some b := by
        simp [cacheGet, cacheSet]
      simp only [hget]
      constructor <;> trivial

/-- C9 witness: a concrete first call succeeds, and the repeated call is a
pure cache hit returning the same buffer with no transport calls. -/
theorem C9_cache_idempotent_witness :
    ((generatePodcastAudioWithRetryM id id (fun _ _ => .ok [3, 4]) (fun _ _ => .error [])
        ("v".toList) 3 [] ("Hi.".toList)).1.result = .ok [3, 4]) ∧
    (generatePodcastAudioWithRetryM id id (fun _ _ => .ok [3, 4]) (fun _ _ => .error [])
        ("v".toList) 3
        (generatePodcastAudioWithRetryM id id (fun _ _ => .ok [3, 4]) (fun _ _ => .error [])
          ("v".toList) 3 [] ("Hi.".toList)).2 ("Hi.".toList)).1
      = ⟨0, 0, [], .ok [3, 4]⟩ := by
  have h : (generatePodcastAudioWithRetryM id id
      (fun _ _ => (Except.ok [3, 4] : Except (List Char) (List Nat)))
      (fun _ _ => .error []) ("v".toList) 3 [] ("Hi.".toList)).1.result
      = .ok [3, 4] := by rfl
  exact ⟨h, (C9_cache_idempotent id id _ _ ("v".toList) 3 [] ("Hi.".toList) [3, 4] h).1⟩

/-! ### Claims C4 / C5: dialogue assembly -/

theorem filterMap_id_map (g : DialogueItem → Option (List Nat)) :
    ∀ (d : List DialogueItem), (d.map g).filterMap id = d.filterMap g := by
  intro d
  induction d with
  | nil => rfl
  | cons a rest ih =>
    cases hg : g a with
    | none => simp [List.filterMap_cons, hg, ih]
    | some b => simp [List.filterMap_cons, hg, ih]

/-- C4 (confirmed): the assembler fails with the all-segments-failed error
exactly when every turn's generation fails; otherwise it drops the failed
turns and concatenates the surviving turns' audio in original turn
order. -/
theorem C4_assembler (gen : DialogueItem → Except (List Char) (List Nat))
    (d : List DialogueItem) :
    (assembleDialogue gen d = .error allFailedMsg ↔ ∀ item ∈ d, ∃ e, gen item = .error e) ∧
    ((∃ item ∈ d, ∃ b, gen item = .ok b) →
      assembleDialogue gen d
        = .ok ((d.filterMap (fun item => (gen item).toOption)).flatten)) := by
  have hL : assembleDialogue gen d
      = if 0 < (d.filterMap (fun item => (gen item).toOption)).length
        then .ok (d.filterMap (fun item => (gen item).toOption)).flatten
        else .error allFailedMsg := by
    simp only [assembleDialogue]
    rw [filterMap_id_map]
  constructor
  · rw [hL]
    by_cases hpos : 0 < (d.filterMap (fun item => (gen item).toOption)).length
    · rw [if_pos hpos]
      constructor
      · intro h
        exact absurd h (by simp)
      · intro hall
        exfalso
        have hnil : d.filterMap (fun item => (gen item).toOption) = [] := by
          rw [List.filterMap_eq_nil_iff]
          intro item hitem
          obtain ⟨e, he⟩ := hall item hitem
          simp [he, Except.toOption]
        rw [hnil] at hpos
        simp at hpos
    · rw [if_neg hpos]
      have hnil : d.filterMap (fun item => (gen item).toOption) = [] := by
        cases hfm : d.filterMap (fun item => (gen item).toOption) with
        | nil => rfl
        | cons x xs => rw [hfm] at hpos; simp at hpos
      constructor
      · intro _ item hitem
        have hnone := List.filterMap_eq_nil_iff.mp hnil item hitem
        cases hg : gen item with
        | error e => exact ⟨e, rfl⟩
        | ok b =>
          rw [hg] at hnone
          simp [Except.toOption] at hnone
      · intro _; rfl
  · rw [hL]
    rintro ⟨item, hitem, b, hb⟩
    have hpos : 0 < (d.filterMap (fun item => (gen item).toOption)).length := by
      have hmem : b ∈ d.filterMap (fun item => (gen item).toOption) :=
        List.mem_filterMap.mpr ⟨item, hitem, by simp [hb, Except.toOption]⟩
      exact List.length_pos_of_mem hmem
    rw [if_pos hpos]

/-- C4 witness: the spec's scenario — turn B always fails, the assembled
output is turn A's audio alone. -/
theorem C4_assembler_witness :
    (∃ item ∈ ([⟨"Hi".toList, "A".toList⟩, ⟨"Bye".toList, "B".toList⟩] : List DialogueItem),
      ∃ b, (fun item : DialogueItem =>
        if item.voice_id = "B".toList
        then (Except.error ("fail".toList) : Except (List Char) (List Nat))
        else .ok [7]) item = .ok b) ∧
    assembleDialogue
        (fun item => if item.voice_id = "B".toList then .error ("fail".toList) else .ok [7])
        [⟨"Hi".toList, "A".toList⟩, ⟨"Bye".toList, "B".toList⟩]
      = .ok ((([⟨"Hi".toList, "A".toList⟩, ⟨"Bye".toList, "B".toList⟩]
          : List DialogueItem).filterMap (fun item =>
            ((fun item : DialogueItem =>
              if item.voice_id = "B".toList
              then (Except.error ("fail".toList) : Except (List Char) (List Nat))
              else .ok [7]) item).toOption)).flatten) := by
  have hex : ∃ item ∈ ([⟨"Hi".toList, "A".toList⟩, ⟨"Bye".toList, "B".toList⟩]
      : List DialogueItem), ∃ b, (fun item : DialogueItem =>
        if item.voice_id = "B".toList
        then (Except.error ("fail".toList) : Except (List Char) (List Nat))
        else .ok [7]) item = .ok b :=
    ⟨⟨"Hi".toList, "A".toList⟩, by simp, [7], rfl⟩
  exact ⟨hex, (C4_assembler _ _).2 hex⟩

/-- C5 (confirmed): when every turn succeeds, the assembled output is the
byte-exact concatenation of the turns' audio in original submission order
(the embedding reassembles `Promise.all` results by index, so completion
order cannot influence it). -/
theorem C5_order (gen : DialogueItem → Except (List Char) (List Nat))
    (audio : DialogueItem → List Nat) (d : List DialogueItem)
    (hne : d ≠ []) (hall : ∀ item ∈ d, gen item = .ok (audio item)) :
    assembleDialogue gen d = .ok ((d.map audio).flatten) := by
  have hfm : d.filterMap (fun item => (gen item).toOption) = d.map audio :=
    filterMap_all_some _ audio d (fun item h => by simp [hall item h, Except.toOption])
  simp only [assembleDialogue]
  rw [filterMap_id_map, hfm]
  rw [if_pos ?hpos]
  case hpos =>
    rw [List.length_map]
    exact List.length_pos_of_ne_nil hne

/-- C5 witness: two all-succeeding turns concatenated in submission
order. -/
theorem C5_order_witness :
    (([⟨"Hi".toList, "A".toList⟩, ⟨"Bye".toList, "B".toList⟩] : List DialogueItem) ≠ [] ∧
      ∀ item ∈ ([⟨"Hi".toList, "A".toList⟩, ⟨"Bye".toList, "B".toList⟩] : List DialogueItem),
        (fun item : DialogueItem =>
          (Except.ok (if item.voice_id = "A".toList then [1] else [2])
            : Except (List Char) (List Nat))) item
        = .ok ((fun item : DialogueItem =>
            if item.voice_id = "A".toList then [1] else [2]) item)) ∧
    assembleDialogue
        (fun item => .ok (if item.voice_id = "A".toList then [1] else [2]))
        [⟨"Hi".toList, "A".toList⟩, ⟨"Bye".toList, "B".toList⟩]
      = .ok ((([⟨"Hi".toList, "A".toList⟩, ⟨"Bye".toList, "B".toList⟩]
          : List DialogueItem).map (fun item =>
            if item.voice_id = "A".toList then [1] else [2])).flatten) := by
  refine ⟨⟨by simp, fun item _ => rfl⟩, ?_⟩
  exact C5_order _ _ _ (by simp) (fun item _ => rfl)

/-! ### Claim C7 -/

/-- C7 (confirmed): on the segmented per-turn path, if any segment call
fails then the whole turn fails — the result is an error, so no
partial-turn audio is produced, and the error propagates to the caller. -/
theorem C7_turn_fails (genSeg : List Char → Except (List Char) (List Nat))
    (text : List Char) (hlen : 2500 < text.length)
    (hfail : ∃ s ∈ splitTextIntoSegments text 2500, ∃ e, genSeg s = .error e) :
    ∃ e', generatePodcastAudioWithVoiceM genSeg text = .error e' := by
  obtain ⟨e', he'⟩ := collectSegs_error genSeg _ hfail
  refine ⟨e', ?_⟩
  unfold generatePodcastAudioWithVoiceM
  rw [if_pos hlen, he']

/-- C7 witness: a 2502-character single-sentence turn whose only segment
call fails makes the whole turn fail. -/
theorem C7_turn_fails_witness :
    (2500 < (List.replicate 2501 'a' ++ ['.']).length ∧
      ∃ s ∈ splitTextIntoSegments (List.replicate 2501 'a' ++ ['.']) 2500, ∃ e,
        (fun _ : List Char =>
          (Except.error ("boom".toList) : Except (List Char) (List Nat))) s
        = .error e) ∧
    ∃ e', generatePodcastAudioWithVoiceM (fun _ => .error ("boom".toList))
        (List.replicate 2501 'a' ++ ['.']) = .error e' := by
  have hseg : splitTextIntoSegments (List.replicate 2501 'a' ++ ['.']) 2500
      = [List.replicate 2501 'a' ++ ['.']] := by
    have h : (2501 : Nat) = 2500 + 1 := by norm_num
    rw [h]
    exact splitTextIntoSegments_one_sentence 2500 2500
  have hlen : 2500 < (List.replicate 2501 'a' ++ ['.']).length := by
    rw [List.length_append, List.length_replicate]
    norm_num
  have hfail : ∃ s ∈ splitTextIntoSegments (List.replicate 2501 'a' ++ ['.']) 2500, ∃ e,
      (fun _ : List Char =>
        (Except.error ("boom".toList) : Except (List Char) (List Nat))) s = .error e :=
    ⟨List.replicate 2501 'a' ++ ['.'], by rw [hseg]; exact List.mem_singleton.mpr rfl,
      "boom".toList, rfl⟩
  exact ⟨⟨hlen, hfail⟩, C7_turn_fails _ _ hlen hfail⟩

/-! ### Claim C10 -/

/-- C10 (confirmed): `fixDialogueFormat` preserves the length and every
entry's text, rewriting only the voice ids to the fixed alternating
pattern — Speaker A's id at even indices, Speaker B's at odd indices. -/
theorem C10_fix_format (d : List DialogueItem) :
    (fixDialogueFormat d).length = d.length ∧
    (∀ i : Nat, ((fixDialogueFormat d)[i]?).map DialogueItem.text
      = (d[i]?).map DialogueItem.text) ∧
    (∀ i : Nat, i < d.length →
      ((fixDialogueFormat d)[i]?).map DialogueItem.voice_id
        = some (if i % 2 = 0 then speakerAVoiceId else speakerBVoiceId)) := by
  refine ⟨mapWithIdx_length _ d 0, ?_, ?_⟩
  · intro i
    unfold fixDialogueFormat
    rw [mapWithIdx_getElem]
    cases h : d[i]? <;> simp
  · intro i hi
    unfold fixDialogueFormat
    rw [mapWithIdx_getElem]
    rw [List.getElem?_eq_getElem hi]
    simp

/-- C10 witness: a two-entry dialogue with wrong voice ids keeps its texts
and gets Speaker A's id at index 0. -/
theorem C10_fix_format_witness :
    (0 < ([⟨"Hi".toList, "x".toList⟩, ⟨"Yo".toList, "y".toList⟩]
      : List DialogueItem).length) ∧
    ((fixDialogueFormat [⟨"Hi".toList, "x".toList⟩, ⟨"Yo".toList, "y".toList⟩])[0]?).map
        DialogueItem.voice_id
      = some (if 0 % 2 = 0 then speakerAVoiceId else speakerBVoiceId) := by
  refine ⟨by norm_num, ?_⟩
  exact (C10_fix_format [⟨"Hi".toList, "x".toList⟩, ⟨"Yo".toList, "y".toList⟩]).2.2 0
    (by norm_num)

end PodcastAgent
